import Mathlib

/-!
Shallow embedding of the kzg-ceremony-sequencer contribution cryptography
and lobby layer.  Strings are modelled as lists of characters and byte
strings as lists of natural numbers below 256.
-/

/-- Participant identity, from src/crypto/src/signature/identity.rs lines
5-10.  The Rust `[u8; 20]` Ethereum address is a list of byte values whose
length-20 constraint appears as a hypothesis where needed; the GitHub id is
a `u64`, so theorems carry an `id < 2 ^ 64` hypothesis. -/
inductive Identity where
  | None : Identity
  | Ethereum (address : List Nat) : Identity
  | Github (id : Nat) (username : List Char) : Identity
deriving DecidableEq

/-- Identity parse errors, from src/crypto/src/signature/identity.rs lines
12-24. -/
inductive IdentityError where
  | UnsupportedType : IdentityError
  | MissingField : IdentityError
  | TooManyFields : IdentityError
  | InvalidEthereumAddress : IdentityError
  | InvalidGithubId : IdentityError
deriving DecidableEq

/-- Splitting a character list at every pipe character, mirroring Rust
`str::split` with a single-character pattern: the empty input yields one
empty piece, and a trailing separator yields a trailing empty piece. -/
def splitPipe : List Char → List (List Char)
  | [] => [[]]
  | c :: cs =>
    if c = '|' then [] :: splitPipe cs
    else
      match splitPipe cs with
      | [] => [[c]]
      | p :: ps => (c :: p) :: ps

/-- Least-significant-first decimal digits with an explicit fuel argument
(the fuel makes the recursion structural; `fuel > n` suffices). -/
def decDigitsRevFuel : Nat → Nat → List Nat
  | 0, _ => []
  | fuel + 1, n => if n < 10 then [n] else n % 10 :: decDigitsRevFuel fuel (n / 10)

/-- Least-significant-first decimal digits of `n`; `0` renders as `[0]`. -/
def decDigitsRev (n : Nat) : List Nat := decDigitsRevFuel (n + 1) n

/-- Decimal rendering of a natural number, mirroring the Rust `Display`
implementation for `u64` used by `write!` in identity.rs line 31. -/
def natToChars (n : Nat) : List Char := (decDigitsRev n).reverse.map Nat.digitChar

/-- Lowercase hex rendering of one byte, as produced by `hex::encode`. -/
def hexEncodeByte (b : Nat) : List Char := [Nat.digitChar (b / 16), Nat.digitChar (b % 16)]

/-- Lowercase hex rendering of a byte string, as produced by `hex::encode`
in identity.rs line 30. -/
def hexEncode (bs : List Nat) : List Char := (bs.map hexEncodeByte).flatten

/-- Value of one hex character; `hex::decode` accepts both cases. -/
def hexCharVal (c : Char) : Option Nat :=
  if 48 ≤ c.toNat ∧ c.toNat ≤ 57 then some (c.toNat - 48)
  else if 97 ≤ c.toNat ∧ c.toNat ≤ 102 then some (c.toNat - 87)
  else if 65 ≤ c.toNat ∧ c.toNat ≤ 70 then some (c.toNat - 55)
  else none

/-- Hex decoding of a character list, mirroring `hex::decode` in
identity.rs line 51: odd length or a non-hex character fails. -/
def hexDecode : List Char → Option (List Nat)
  | [] => some []
  | [_] => none
  | c1 :: c2 :: rest =>
    match hexCharVal c1, hexCharVal c2, hexDecode rest with
    | some h, some l, some bs => some ((16 * h + l) :: bs)
    | _, _, _ => none

/-- Digit-accumulating loop of `u64::from_str`, with the checked-overflow
behaviour of Rust integer parsing. -/
def parseDecGo : Nat → List Char → Option Nat
  | acc, [] => some acc
  | acc, c :: cs =>
    if c.isDigit then
      if acc * 10 + (c.toNat - 48) < 2 ^ 64 then
        parseDecGo (acc * 10 + (c.toNat - 48)) cs
      else none
    else none

/-- `u64::from_str`, as invoked by `id.parse()` in identity.rs line 65:
an optional leading plus sign, then at least one decimal digit, value below
`2 ^ 64`. -/
def parseU64 : List Char → Option Nat
  | [] => none
  | c :: cs => if c = '+' then (if cs = [] then none else parseDecGo 0 cs) else parseDecGo 0 (c :: cs)

/-- Canonical string encoding of an identity, from the `Display` instance
in src/crypto/src/signature/identity.rs lines 26-34. -/
def Identity.encode : Identity → List Char
  | .None => []
  | .Ethereum address => 'e' :: 't' :: 'h' :: '|' :: '0' :: 'x' :: hexEncode address
  | .Github id username => 'g' :: 'i' :: 't' :: '|' :: (natToChars id ++ '|' :: username)

/-- The Ethereum branch of identity parsing, from identity.rs lines 42-57:
length-42 check, `0x` check, hex decode, 20-byte conversion. -/
def ethFromChars (address : List Char) : Except IdentityError Identity :=
  if address.length ≠ 42 ∨ address.take 2 ≠ ['0', 'x'] then .error .InvalidEthereumAddress
  else
    match hexDecode (address.drop 2) with
    | none => .error .InvalidEthereumAddress
    | some bytes =>
      if bytes.length = 20 then .ok (.Ethereum bytes) else .error .InvalidEthereumAddress

/-- Identity parsing, from the `FromStr` instance in
src/crypto/src/signature/identity.rs lines 36-79.  The `[]` case of
`splitPipe` is unreachable (`splitPipe` never returns an empty list). -/
def Identity.parse (s : List Char) : Except IdentityError Identity :=
  match splitPipe s with
  | [] => .error .UnsupportedType
  | first :: rest =>
    if first = ['e', 't', 'h'] then
      match rest with
      | [] => .error .MissingField
      | [address] => ethFromChars address
      | _ => .error .TooManyFields
    else if first = ['g', 'i', 't'] then
      match rest with
      | [] => .error .MissingField
      | [_] => .error .MissingField
      | [idPart, username] =>
        match parseU64 idPart with
        | none => .error .InvalidGithubId
        | some id => .ok (.Github id username)
      | _ => .error .TooManyFields
    else if first = [] then
      match rest with
      | [] => .ok .None
      | _ => .error .TooManyFields
    else .error .UnsupportedType

/-- Order of the prime-order subgroup of BLS12-381 (the scalar field
modulus `r`). -/
def blsR : Nat := 52435875175126190479447740508185965837690552500527637822603658699938581184513

/-- Modelled from the spec (section 3; the curve engine is not among the
provided sources): a scalar field element. -/
abbrev F : Type := ZMod blsR

/-- Modelled from the spec: a G1 subgroup point, represented by its
discrete logarithm with respect to the standard generator; the subgroup is
cyclic of order `blsR`, so scalar multiplication is field multiplication
and the generator is `1`. -/
abbrev G1 : Type := ZMod blsR

/-- Modelled from the spec: a G2 subgroup point, in the same discrete
logarithm representation as `G1`. -/
abbrev G2 : Type := ZMod blsR

/-- Point validation errors of the ceremony, from the spec (section 7);
reasons are modelled as opaque numeric codes. -/
inductive CeremonyError where
  | InvalidG1Power (index : Nat) (reason : Nat) : CeremonyError
  | InvalidG2Power (index : Nat) (reason : Nat) : CeremonyError
deriving DecidableEq

/-- The pair of power sequences, from the spec (section 3, `Powers`; its
source file is not provided). -/
structure Powers where
  g1 : List G1
  g2 : List G2
deriving DecidableEq

/-- An optional BLS signature, from src/crypto/src/signature/mod.rs
line 20. -/
structure BlsSignature where
  sig : Option G1
deriving DecidableEq

/-- `BlsSignature::empty`, from src/crypto/src/signature/mod.rs
lines 24-26. -/
def BlsSignature.empty : BlsSignature := ⟨none⟩

/-- Modelled from the spec (section 4.1 `sign_message`, engine sources not
provided): the BLS signature `τ · H(msg)` on G1, where `hashG1` stands for
the hash-to-curve map. -/
def BlsSignature.sign (hashG1 : List Nat → G1) (message : List Nat) (sk : F) : BlsSignature :=
  ⟨some (sk * hashG1 message)⟩

/-- `BlsSignature::prune`, from src/crypto/src/signature/mod.rs lines
29-37: keep the contained signature exactly when it verifies against the
message and public key; `verify` stands for the engine's
`verify_signature`. -/
def BlsSignature.prune (verify : G1 → List Nat → G2 → Bool) (s : BlsSignature)
    (message : List Nat) (pk : G2) : BlsSignature :=
  ⟨s.sig.bind fun sg => if verify sg message pk then some sg else none⟩

/-- The contribution object, from src/crypto/src/contribution.rs
lines 10-15. -/
structure Contribution where
  powers : Powers
  pot_pubkey : G2
  bls_signature : BlsSignature
deriving DecidableEq

/-- Modelled from the spec (section 4.1): the list
`[acc, acc·τ, acc·τ², …]` of length `k`, computed by successive
multiplication. -/
def tauPowersFrom (tau : F) : F → Nat → List F
  | _, 0 => []
  | acc, k + 1 => acc :: tauPowersFrom tau (acc * tau) k

/-- Modelled from the spec (section 4.1): `[1, τ, τ², …, τ^(k-1)]` by
successive multiplication. -/
def tauPowers (tau : F) (k : Nat) : List F := tauPowersFrom tau 1 k

/-- Modelled from the spec (section 4.1, the engine's `add_tau_g1` and
`add_tau_g2`, sources not provided): the transform `pts[i] ← τ^i · pts[i]`,
specified as computing the power list by successive multiplication and then
multiplying pointwise. -/
def addTauPoints (tau : F) (pts : List F) : List F :=
  List.zipWith (fun s p => s * p) (tauPowers tau pts.length) pts

/-- The byte string of the canonical identity encoding, as produced by
`identity.to_string().as_bytes()` in contribution.rs line 39. -/
def identityBytes (id : Identity) : List Nat := (Identity.encode id).map Char.toNat

/-- `Contribution::add_tau`, from src/crypto/src/contribution.rs lines
27-43: update the g1 and g2 powers, recompute `pot_pubkey` through the
two-element auxiliary array `[G2::one(), pot_pubkey]`, and sign the
canonical identity encoding with `tau`. -/
def Contribution.add_tau (hashG1 : List Nat → G1) (tau : F) (identity : Identity)
    (c : Contribution) : Except CeremonyError Contribution :=
  let g1 := addTauPoints tau c.powers.g1
  let g2 := addTauPoints tau c.powers.g2
  let temp := addTauPoints tau [1, c.pot_pubkey]
  .ok { powers := { g1 := g1, g2 := g2 },
        pot_pubkey := temp.getD 1 0,
        bls_signature := BlsSignature.sign hashG1 (identityBytes identity) tau }

/-- Modelled from the spec (section 4.1, the engine's `validate_g1` and
`validate_g2`, sources not provided): check every point and fail at the
first invalid index with the given error constructor. -/
def validatePoints (check : ZMod blsR → Option Nat) (mkErr : Nat → Nat → CeremonyError) :
    Nat → List (ZMod blsR) → Except CeremonyError Unit
  | _, [] => .ok ()
  | i, p :: ps =>
    match check p with
    | some reason => .error (mkErr i reason)
    | none => validatePoints check mkErr (i + 1) ps

/-- Modelled from the spec: `validate_g1`, failing with
`InvalidG1Power(index, reason)` at the first invalid point. -/
def validateG1 (checkG1 : G1 → Option Nat) (pts : List G1) : Except CeremonyError Unit :=
  validatePoints checkG1 CeremonyError.InvalidG1Power 0 pts

/-- Modelled from the spec: `validate_g2`, failing with
`InvalidG2Power(index, reason)` at the first invalid point. -/
def validateG2 (checkG2 : G2 → Option Nat) (pts : List G2) : Except CeremonyError Unit :=
  validatePoints checkG2 CeremonyError.InvalidG2Power 0 pts

/-- `Contribution::validate`, from src/crypto/src/contribution.rs lines
47-53: validate the g1 powers, then the g2 powers, then the one-element
sequence holding `pot_pubkey`, propagating the first error; the `&mut self`
receiver is only read, so the model is a pure function of the
contribution. -/
def Contribution.validate (checkG1 checkG2 : ZMod blsR → Option Nat) (c : Contribution) :
    Except CeremonyError Unit :=
  match validateG1 checkG1 c.powers.g1 with
  | .error e => .error e
  | .ok _ =>
    match validateG2 checkG2 c.powers.g2 with
    | .error e => .error e
    | .ok _ => validateG2 checkG2 [c.pot_pubkey]

/-- An optional ECDSA signature over an abstract signature type, from
src/crypto/src/signature/mod.rs line 67. -/
structure EcdsaSignature (S : Type) where
  sig : Option S
deriving DecidableEq

/-- `EcdsaSignature::empty`, from src/crypto/src/signature/mod.rs
lines 71-73. -/
def EcdsaSignature.empty {S : Type} : EcdsaSignature S := ⟨none⟩

/-- `EcdsaSignature::prune`, from src/crypto/src/signature/mod.rs lines
76-85: keep the signature only when the identity is an Ethereum identity,
the EIP-712 encoding of the typed data succeeds, and the signature verifies
against the declared address; `verify` stands for ethers signature
verification and `encode` for `Eip712::encode_eip712` followed by `.ok()`. -/
def EcdsaSignature.prune {S D : Type} (verify : S → List Nat → List Nat → Bool)
    (encode : D → Option (List Nat)) (s : EcdsaSignature S) (identity : Identity)
    (data : D) : EcdsaSignature S :=
  ⟨s.sig.bind fun sg =>
    match identity with
    | .Ethereum address => (encode data).bind fun m => if verify sg m address then some sg else none
    | _ => none⟩

/-- The error kinds of `try_contribute`, from src/src/api/v1/lobby.rs
lines 17-31 (payloads omitted). -/
inductive TryContributeError where
  | UnknownSessionId : TryContributeError
  | RateLimited : TryContributeError
  | AnotherContributionInProgress : TryContributeError
  | LobbyIsFull : TryContributeError
  | StorageError : TryContributeError
  | TaskError : TryContributeError
deriving DecidableEq

/-- The per-session lobby record, from the spec (section 3, `Session`; the
lobby sources are not provided); the instant type is a natural number and
`uid` stands for `token.unique_identifier()`. -/
structure SessionInfo where
  is_first_ping_attempt : Bool
  last_ping_time : Nat
  uid : Nat
deriving DecidableEq

/-- The lobby state, from the spec (section 3, `LobbyState`): a session
table and the optional active slot, keyed by numeric session ids. -/
structure LobbyState where
  sessions : List (Nat × SessionInfo)
  active : Option Nat
deriving DecidableEq

/-- Modelled from the spec (section 4.5; `SharedLobbyState::modify_participant`
is not among the provided sources): look up the session, apply `f` to its
info and store the updated info; the result is absent when the session is
not registered. -/
def modifyParticipant (st : LobbyState) (sid : Nat)
    (f : SessionInfo → Except TryContributeError Nat × SessionInfo) :
    Option (Except TryContributeError Nat) × LobbyState :=
  match st.sessions.lookup sid with
  | none => (none, st)
  | some info =>
    let r := f info
    (some r.1, { st with sessions := st.sessions.map fun p => if p.1 = sid then (sid, r.2) else p })

/-- The closure `try_contribute` passes to `modify_participant`, from
src/src/api/v1/lobby.rs lines 72-82: a non-first ping arriving before
`min_checkin_delay` has elapsed since `last_ping_time` is rate limited;
otherwise the exemption flag is cleared, the ping time refreshed and the
session's unique identifier returned. -/
def pingClosure (now delay : Nat) (info : SessionInfo) :
    Except TryContributeError Nat × SessionInfo :=
  if info.is_first_ping_attempt = false ∧ now < info.last_ping_time + delay then
    (.error .RateLimited, info)
  else
    (.ok info.uid, { info with is_first_ping_attempt := false, last_ping_time := now })

/-- Modelled from the spec (section 4.5 `try_promote`; the lobby state
machine sources are not provided): promote the session when the active slot
is free or already held by it, otherwise another contribution is in
progress. -/
def admissionTail (st : LobbyState) (sid : Nat) : Except TryContributeError Unit × LobbyState :=
  match st.active with
  | some other => if other = sid then (.ok (), st) else (.error .AnotherContributionInProgress, st)
  | none => (.ok (), { st with active := some sid })

/-- `try_contribute`, from src/src/api/v1/lobby.rs lines 64-120, with time
as an explicit `now` argument, the detached admission tail run in line, and
the storage and transcript effects omitted: run the ping closure through
`modify_participant`, propagate its error, otherwise run the admission
tail; an unregistered session is answered only when it is the current
active contributor (`NotActiveContributor` maps to `UnknownSessionId` by
lines 39-51). -/
def tryContribute (st : LobbyState) (sid now delay : Nat) :
    Except TryContributeError Unit × LobbyState :=
  match modifyParticipant st sid (pingClosure now delay) with
  | (some (.error e), st1) => (.error e, st1)
  | (some (.ok _), st1) =>
    match admissionTail st1 sid with
    | (.ok _, st2) => (.ok (), st2)
    | (.error e, st2) => (.error e, st2)
  | (none, st1) => if st1.active = some sid then (.ok (), st1) else (.error .UnknownSessionId, st1)

/-- ASCII bytes of the oversize-DST label, from xmd_expander.rs line 34. -/
def longDstLabel : List Nat := [72, 50, 67, 45, 79, 86, 69, 82, 83, 73, 90, 69, 45, 68, 83, 84, 45]

/-- `ExpanderXmd::construct_dst_prime`, from
src/crypto/src/engine/arkworks/hashing/xmd_expander.rs lines 43-54: hash
oversized DSTs under the label, then append the length as one byte. -/
def constructDstPrime (H : List Nat → List Nat) (dst : List Nat) : List Nat :=
  let d := if 255 < dst.length then H (longDstLabel ++ dst) else dst
  d ++ [d.length % 256]

/-- The `for i in 2..=ell` loop of `ExpanderXmd::expand` (xmd_expander.rs
lines 89-98), carrying the current block and the accumulated
`uniform_bytes`. -/
def xmdLoop (H : List Nat → List Nat) (dstPrime b0 : List Nat) :
    List Nat → List Nat × List Nat → List Nat × List Nat
  | [], acc => acc
  | i :: rest, acc =>
    let bnext := H ((List.zipWith (fun l r => l ^^^ r) b0 acc.1) ++ [i % 256] ++ dstPrime)
    xmdLoop H dstPrime b0 rest (bnext, acc.2 ++ bnext)

/-- `ExpanderXmd::expand`, from xmd_expander.rs lines 56-100, for a hasher
modelled as the function `H` with output length `bLen` and block size
`blockSize`; the two `assert!` aborts are `none`, and the final slice
`uniform_bytes[0..n]` is guarded because slicing beyond the length would
panic. -/
def xmdExpand (H : List Nat → List Nat) (bLen blockSize : Nat) (dst msg : List Nat)
    (n : Nat) : Option (List Nat) :=
  let ell := (n + (bLen - 1)) / bLen
  if 255 < ell then none
  else if 2 ^ 16 ≤ n then none
  else
    let dstPrime := constructDstPrime H dst
    let zPad : List Nat := List.replicate blockSize 0
    let b0 := H (zPad ++ msg ++ [n / 256, n % 256] ++ [0] ++ dstPrime)
    let b1 := H (b0 ++ [1] ++ dstPrime)
    let r := xmdLoop H dstPrime b0 (List.range' 2 (ell - 1)) (b1, b1)
    if n ≤ r.2.length then some (r.2.take n) else none

/-- The block sequence as the claim states it: `b1` is given, and
`b_i = H((b0 xor b_(i-1)) || i || DST')` for `i ≥ 2`. -/
def specBlock (H : List Nat → List Nat) (dstPrime b0 b1 : List Nat) : Nat → List Nat
  | 0 => b1
  | 1 => b1
  | i + 2 =>
    H ((List.zipWith (fun l r => l ^^^ r) b0 (specBlock H dstPrime b0 b1 (i + 1))) ++
       [i + 2] ++ dstPrime)

/-- The output as the claim states it: the first `n` bytes of
`b1 || b2 || … || b_ell` with `ell` the ceiling of `n` over the hash output
size, `b0 = H(Z_pad || msg || I2OSP(n, 2) || 0x00 || DST')` and `Z_pad`
equal to `blockSize` zero bytes. -/
def xmdSpec (H : List Nat → List Nat) (bLen blockSize : Nat) (dst msg : List Nat)
    (n : Nat) : List Nat :=
  let ell := (n + (bLen - 1)) / bLen
  let dstPrime := constructDstPrime H dst
  let zPad : List Nat := List.replicate blockSize 0
  let b0 := H (zPad ++ msg ++ [n / 256, n % 256] ++ [0] ++ dstPrime)
  let b1 := H (b0 ++ [1] ++ dstPrime)
  (((List.range' 1 ell).map (specBlock H dstPrime b0 b1)).flatten).take n

/-- A constant two-byte hasher, used to instantiate witnesses. -/
def hashConst2 : List Nat → List Nat := fun _ => [7, 9]

/-- A point check rejecting every point with reason code 3, used in
witnesses. -/
def checkAllBad : ZMod blsR → Option Nat := fun _ => some 3

/-- A point check accepting every point, used in witnesses. -/
def checkAllGood : ZMod blsR → Option Nat := fun _ => none

/-- A BLS verifier rejecting everything, used in witnesses. -/
def verifyNever : G1 → List Nat → G2 → Bool := fun _ _ _ => false

/-- An ECDSA verifier accepting everything, used in witnesses. -/
def ecdsaVerifyAlways : Nat → List Nat → List Nat → Bool := fun _ _ _ => true

/-- An ECDSA verifier rejecting everything, used in witnesses. -/
def ecdsaVerifyNever : Nat → List Nat → List Nat → Bool := fun _ _ _ => false

/-- A constant EIP-712 encoding, used in witnesses. -/
def eipEncodeConst : Nat → Option (List Nat) := fun _ => some [1, 2]

/-- The typing constraints the Rust representation imposes on an identity:
a 20-byte Ethereum address, a `u64` GitHub id; and, for the amended
round-trip property, a username without the pipe separator. -/
def Identity.wellFormed : Identity → Bool
  | .None => true
  | .Ethereum address => decide (address.length = 20) && decide (∀ b ∈ address, b < 256)
  | .Github id username => decide (id < 2 ^ 64) && decide ('|' ∉ username)

/-- Abbreviation for the step function of decimal evaluation, most
significant digit first. -/
def decStep (a : Nat) (c : Char) : Nat := a * 10 + (c.toNat - 48)

/- ------------------------------------------------------------------ -/
/- Supporting lemmas.                                                  -/
/- ------------------------------------------------------------------ -/

theorem splitPipe_ne_nil (s : List Char) : splitPipe s ≠ [] := by
  induction s with
  | nil => simp [splitPipe]
  | cons c cs ih =>
    simp only [splitPipe]
    split
    · simp
    · cases h : splitPipe cs with
      | nil => simp
      | cons p ps => simp

theorem splitPipe_of_no_pipe (s : List Char) (h : '|' ∉ s) : splitPipe s = [s] := by
  induction s with
  | nil => rfl
  | cons c cs ih =>
    simp only [List.mem_cons, not_or] at h
    simp only [splitPipe]
    rw [if_neg (fun hc => h.1 hc.symm), ih h.2]

theorem splitPipe_append_pipe (a b : List Char) (h : '|' ∉ a) :
    splitPipe (a ++ '|' :: b) = a :: splitPipe b := by
  induction a with
  | nil => simp [splitPipe]
  | cons c cs ih =>
    simp only [List.mem_cons, not_or] at h
    simp only [List.cons_append, splitPipe, List.append_eq, ih h.2]
    rw [if_neg (fun hc => h.1 hc.symm)]

theorem digitChar_eq_star (d : Nat) (h : 16 ≤ d) : Nat.digitChar d = '*' := by
  have h0 : d ≠ 0 := by omega
  have h1 : d ≠ 1 := by omega
  have h2 : d ≠ 2 := by omega
  have h3 : d ≠ 3 := by omega
  have h4 : d ≠ 4 := by omega
  have h5 : d ≠ 5 := by omega
  have h6 : d ≠ 6 := by omega
  have h7 : d ≠ 7 := by omega
  have h8 : d ≠ 8 := by omega
  have h9 : d ≠ 9 := by omega
  have h10 : d ≠ 10 := by omega
  have h11 : d ≠ 11 := by omega
  have h12 : d ≠ 12 := by omega
  have h13 : d ≠ 13 := by omega
  have h14 : d ≠ 14 := by omega
  have h15 : d ≠ 15 := by omega
  simp [Nat.digitChar, h0, h1, h2, h3, h4, h5, h6, h7, h8, h9, h10, h11, h12, h13, h14, h15]

theorem digitChar_ne_pipe (d : Nat) : Nat.digitChar d ≠ '|' := by
  rcases Nat.lt_or_ge d 16 with h | h
  · interval_cases d <;> decide
  · rw [digitChar_eq_star d h]
    decide

theorem hexCharVal_digitChar (d : Nat) (h : d < 16) :
    hexCharVal (Nat.digitChar d) = some d := by
  interval_cases d <;> decide

theorem digitChar_isDigit (d : Nat) (h : d < 10) : (Nat.digitChar d).isDigit = true := by
  interval_cases d <;> decide

theorem digitChar_toNat_sub (d : Nat) (h : d < 10) : (Nat.digitChar d).toNat - 48 = d := by
  interval_cases d <;> decide

theorem digitChar_ne_plus (d : Nat) : Nat.digitChar d ≠ '+' := by
  rcases Nat.lt_or_ge d 16 with h | h
  · interval_cases d <;> decide
  · rw [digitChar_eq_star d h]
    decide

theorem pipe_not_in_hexEncode (bs : List Nat) : '|' ∉ hexEncode bs := by
  induction bs with
  | nil => simp [hexEncode]
  | cons b bs ih =>
    simp only [hexEncode, List.map_cons, List.flatten_cons, List.mem_append, not_or] at *
    refine ⟨?_, ih⟩
    simp only [hexEncodeByte, List.mem_cons, List.not_mem_nil, or_false, not_or]
    exact ⟨fun hc => digitChar_ne_pipe _ hc.symm, fun hc => digitChar_ne_pipe _ hc.symm⟩

theorem hexEncode_length (bs : List Nat) : (hexEncode bs).length = 2 * bs.length := by
  induction bs with
  | nil => rfl
  | cons b bs ih =>
    simp only [hexEncode, List.map_cons, List.flatten_cons, List.length_append] at *
    simp [hexEncodeByte, ih]
    omega

theorem hexDecode_hexEncode (bs : List Nat) (h : ∀ b ∈ bs, b < 256) :
    hexDecode (hexEncode bs) = some bs := by
  induction bs with
  | nil => rfl
  | cons b bs ih =>
    have hb : b < 256 := h b (List.mem_cons_self b bs)
    have hdiv : b / 16 < 16 := by omega
    have hmod : b % 16 < 16 := Nat.mod_lt _ (by norm_num)
    have hrest : hexDecode (hexEncode bs) = some bs := ih (fun x hx => h x (List.mem_cons_of_mem _ hx))
    show hexDecode (Nat.digitChar (b / 16) :: Nat.digitChar (b % 16) :: hexEncode bs) = some (b :: bs)
    rw [hexDecode]
    rw [hexCharVal_digitChar _ hdiv, hexCharVal_digitChar _ hmod, hrest]
    simp only [Option.some.injEq, List.cons.injEq, eq_self_iff_true, and_true]
    omega

theorem decDigitsRevFuel_digits_lt (fuel n : Nat) (h : n < fuel) :
    ∀ d ∈ decDigitsRevFuel fuel n, d < 10 := by
  induction fuel generalizing n with
  | zero => omega
  | succ fuel ih =>
    intro d hd
    simp only [decDigitsRevFuel] at hd
    split at hd
    · simp only [List.mem_singleton] at hd
      omega
    · rcases List.mem_cons.mp hd with h1 | h1
      · omega
      · exact ih (n / 10) (by omega) d h1

theorem decDigitsRevFuel_foldr (fuel n : Nat) (h : n < fuel) :
    (decDigitsRevFuel fuel n).foldr (fun d acc => acc * 10 + d) 0 = n := by
  induction fuel generalizing n with
  | zero => omega
  | succ fuel ih =>
    simp only [decDigitsRevFuel]
    split
    · simp
    · rw [List.foldr_cons, ih (n / 10) (by omega)]
      omega

theorem decDigitsRevFuel_ne_nil (fuel n : Nat) (h : n < fuel) :
    decDigitsRevFuel fuel n ≠ [] := by
  cases fuel with
  | zero => omega
  | succ fuel =>
    simp only [decDigitsRevFuel]
    split <;> simp

theorem natToChars_ne_nil (n : Nat) : natToChars n ≠ [] := by
  unfold natToChars decDigitsRev
  simp only [ne_eq, List.map_eq_nil_iff, List.reverse_eq_nil_iff]
  exact decDigitsRevFuel_ne_nil (n + 1) n (by omega)

theorem mem_natToChars (n : Nat) (c : Char) (hc : c ∈ natToChars n) :
    ∃ d, d < 10 ∧ c = Nat.digitChar d := by
  unfold natToChars decDigitsRev at hc
  rcases List.mem_map.mp hc with ⟨d, hd, rfl⟩
  exact ⟨d, decDigitsRevFuel_digits_lt _ _ (by omega) d (List.mem_reverse.mp hd), rfl⟩

theorem pipe_not_in_natToChars (n : Nat) : '|' ∉ natToChars n := by
  intro hc
  rcases mem_natToChars n _ hc with ⟨d, _, hd⟩
  exact digitChar_ne_pipe d hd.symm

theorem foldl_decStep_le (ds : List Char) (acc : Nat) : acc ≤ ds.foldl decStep acc := by
  induction ds generalizing acc with
  | nil => simp
  | cons c cs ih =>
    rw [List.foldl_cons]
    have h1 : acc ≤ decStep acc c := by unfold decStep; omega
    exact h1.trans (ih _)

theorem parseDecGo_spec (ds : List Char) (acc : Nat)
    (hd : ∀ c ∈ ds, c.isDigit = true) (hlt : ds.foldl decStep acc < 2 ^ 64) :
    parseDecGo acc ds = some (ds.foldl decStep acc) := by
  induction ds generalizing acc with
  | nil => simp [parseDecGo]
  | cons c cs ih =>
    rw [List.foldl_cons] at hlt ⊢
    rw [parseDecGo, if_pos (hd c (List.mem_cons_self c cs))]
    have hstep : acc * 10 + (c.toNat - 48) = decStep acc c := rfl
    rw [hstep, if_pos ((foldl_decStep_le cs (decStep acc c)).trans_lt hlt)]
    exact ih (decStep acc c) (fun x hx => hd x (List.mem_cons_of_mem _ hx)) hlt

theorem foldl_decStep_digitChar (l : List Nat) (acc : Nat) (h : ∀ d ∈ l, d < 10) :
    (l.map Nat.digitChar).foldl decStep acc = l.foldl (fun a d => a * 10 + d) acc := by
  induction l generalizing acc with
  | nil => rfl
  | cons d ds ih =>
    simp only [List.map_cons, List.foldl_cons]
    have hstep : decStep acc (Nat.digitChar d) = acc * 10 + d := by
      unfold decStep
      rw [digitChar_toNat_sub d (h d (List.mem_cons_self d ds))]
    rw [hstep]
    exact ih _ (fun x hx => h x (List.mem_cons_of_mem _ hx))

theorem natToChars_foldl (n : Nat) :
    (natToChars n).foldl decStep 0 = n := by
  unfold natToChars decDigitsRev
  rw [foldl_decStep_digitChar _ 0
    (fun d hd => decDigitsRevFuel_digits_lt (n + 1) n (by omega) d (List.mem_reverse.mp hd))]
  rw [List.foldl_reverse]
  exact decDigitsRevFuel_foldr (n + 1) n (by omega)

theorem parseU64_natToChars (n : Nat) (h : n < 2 ^ 64) :
    parseU64 (natToChars n) = some n := by
  obtain ⟨c, cs, hcons⟩ := List.exists_cons_of_ne_nil (natToChars_ne_nil n)
  have hdigit : ∀ x ∈ natToChars n, x.isDigit = true := by
    intro x hx
    rcases mem_natToChars n x hx with ⟨d, hd10, rfl⟩
    exact digitChar_isDigit d hd10
  have hc_ne : c ≠ '+' := by
    have hmem : c ∈ natToChars n := by
      rw [hcons]
      exact List.mem_cons_self c cs
    rcases mem_natToChars n c hmem with ⟨d, _, rfl⟩
    exact digitChar_ne_plus d
  have hval : (natToChars n).foldl decStep 0 = n := natToChars_foldl n
  rw [hcons] at hval ⊢
  rw [parseU64, if_neg hc_ne, parseDecGo_spec _ _ (by rw [← hcons] at *; exact hdigit) (hval ▸ h), hval]

theorem identity_encode_eth (address : List Nat) :
    Identity.encode (.Ethereum address) =
      ['e', 't', 'h'] ++ '|' :: ('0' :: 'x' :: hexEncode address) := rfl

theorem identity_encode_git (gid : Nat) (username : List Char) :
    Identity.encode (.Github gid username) =
      ['g', 'i', 't'] ++ '|' :: (natToChars gid ++ '|' :: username) := rfl

/-- C2 (amended): parsing the canonical encoding returns the original
identity for every representable identity whose GitHub username does not
contain the pipe separator. -/
theorem identity_parse_encode (id : Identity) (h : id.wellFormed = true) :
    Identity.parse (Identity.encode id) = .ok id := by
  cases id with
  | None => rfl
  | Ethereum address =>
    simp only [Identity.wellFormed, Bool.and_eq_true, decide_eq_true_eq] at h
    obtain ⟨hlen, hbytes⟩ := h
    have hnp : '|' ∉ '0' :: 'x' :: hexEncode address := by
      simp only [List.mem_cons, not_or]
      exact ⟨by decide, by decide, pipe_not_in_hexEncode address⟩
    have hsp : splitPipe (Identity.encode (.Ethereum address)) =
        [['e', 't', 'h'], '0' :: 'x' :: hexEncode address] := by
      rw [identity_encode_eth, splitPipe_append_pipe _ _ (by decide),
          splitPipe_of_no_pipe _ hnp]
    have hlen42 : ('0' :: 'x' :: hexEncode address).length = 42 := by
      simp [hexEncode_length, hlen]
    unfold Identity.parse ethFromChars
    rw [hsp]
    simp [hlen42, hexDecode_hexEncode address hbytes, hlen]
  | Github gid username =>
    simp only [Identity.wellFormed, Bool.and_eq_true, decide_eq_true_eq] at h
    obtain ⟨hid, hu⟩ := h
    have hsp : splitPipe (Identity.encode (.Github gid username)) =
        [['g', 'i', 't'], natToChars gid, username] := by
      rw [identity_encode_git, splitPipe_append_pipe _ _ (by decide),
          splitPipe_append_pipe _ _ (pipe_not_in_natToChars gid),
          splitPipe_of_no_pipe _ hu]
    unfold Identity.parse
    rw [hsp]
    simp [parseU64_natToChars gid hid]

/-- C2 counterexample: for the GitHub identity with id 1 and username
`a|b` — a value the claim quantifies over — parsing the canonical encoding
does not return the identity but fails with `TooManyFields`, because the
pipe inside the username produces four fields. -/
theorem identity_parse_encode_pipe_counterexample :
    Identity.parse (Identity.encode (.Github 1 ['a', '|', 'b'])) = .error .TooManyFields ∧
    ¬ Identity.parse (Identity.encode (.Github 1 ['a', '|', 'b'])) =
        .ok (.Github 1 ['a', '|', 'b']) := by
  constructor
  · rfl
  · intro hc
    have h2 : (Except.error IdentityError.TooManyFields : Except IdentityError Identity) =
        .ok (.Github 1 ['a', '|', 'b']) := hc
    exact Except.noConfusion h2

/-- Witness for the amended C2 theorem at a concrete well-formed GitHub
identity. -/
theorem identity_parse_encode_witness :
    Identity.parse (Identity.encode (.Github 123 ['u', 's', 'e', 'r'])) =
      .ok (.Github 123 ['u', 's', 'e', 'r']) :=
  identity_parse_encode (.Github 123 ['u', 's', 'e', 'r']) (by decide)

/-- C8: the published identity vectors and the strict failure kinds:
the zero-address vector, the GitHub vector, the empty string, 39-digit hex,
a missing field, too many fields, an unknown tag, malformed hex, and a
non-integer GitHub id. -/
theorem identity_parse_vectors :
    Identity.parse (['e', 't', 'h', '|', '0', 'x'] ++ List.replicate 40 '0') =
      .ok (.Ethereum (List.replicate 20 0)) ∧
    Identity.parse ['g', 'i', 't', '|', '1', '2', '3', '|',
        'u', 's', 'e', 'r', 'n', 'a', 'm', 'e'] =
      .ok (.Github 123 ['u', 's', 'e', 'r', 'n', 'a', 'm', 'e']) ∧
    Identity.parse [] = .ok .None ∧
    Identity.parse (['e', 't', 'h', '|', '0', 'x'] ++ List.replicate 39 '0') =
      .error .InvalidEthereumAddress ∧
    Identity.parse ['e', 't', 'h'] = .error .MissingField ∧
    Identity.parse ['e', 't', 'h', '|', 'a', '|', 'b'] = .error .TooManyFields ∧
    Identity.parse ['f', 'o', 'o', '|', 'x'] = .error .UnsupportedType ∧
    Identity.parse (['e', 't', 'h', '|', '0', 'x'] ++ List.replicate 40 'z') =
      .error .InvalidEthereumAddress ∧
    Identity.parse ['g', 'i', 't', '|', 'a', 'b', 'c', '|', 'u'] =
      .error .InvalidGithubId :=
  ⟨rfl, rfl, rfl, rfl, rfl, rfl, rfl, rfl, rfl⟩

/-- C4: `BlsSignature::prune` is idempotent for a fixed message and public
key; a contained signature that does not verify is pruned to the empty
signature; a contained signature that verifies is returned unchanged. -/
theorem bls_prune_spec (verify : G1 → List Nat → G2 → Bool) (s : BlsSignature)
    (message : List Nat) (pk : G2) :
    BlsSignature.prune verify (BlsSignature.prune verify s message pk) message pk =
      BlsSignature.prune verify s message pk ∧
    (∀ sg, s.sig = some sg → verify sg message pk = false →
      BlsSignature.prune verify s message pk = BlsSignature.empty) ∧
    (∀ sg, s.sig = some sg → verify sg message pk = true →
      BlsSignature.prune verify s message pk = s) := by
  obtain ⟨sig⟩ := s
  refine ⟨?_, ?_, ?_⟩
  · cases sig with
    | none => rfl
    | some sg =>
      simp only [BlsSignature.prune, Option.some_bind]
      cases hv : verify sg message pk with
      | false => simp
      | true => simp [hv]
  · intro sg hs hv
    cases hs
    simp [BlsSignature.prune, hv, BlsSignature.empty]
  · intro sg hs hv
    cases hs
    simp [BlsSignature.prune, hv]

/-- Witness for C4 at a rejecting verifier and a present signature. -/
theorem bls_prune_spec_witness :
    BlsSignature.prune verifyNever ⟨some 1⟩ [] 0 = BlsSignature.empty :=
  (bls_prune_spec verifyNever ⟨some 1⟩ [] 0).2.1 1 rfl rfl

/-- C7: for an Ethereum identity whose typed data encodes successfully,
`EcdsaSignature::prune` replaces a non-verifying signature by the empty
signature and returns a verifying signature unchanged; the function is
total (its result type is a signature, not an error), so a failing outer
signature never rejects the containing contribution. -/
theorem ecdsa_prune_ethereum_spec {S D : Type} (verify : S → List Nat → List Nat → Bool)
    (encode : D → Option (List Nat)) (s : EcdsaSignature S) (a : List Nat) (d : D)
    (m : List Nat) (henc : encode d = some m) :
    (∀ sg, s.sig = some sg → verify sg m a = false →
      EcdsaSignature.prune verify encode s (.Ethereum a) d = EcdsaSignature.empty) ∧
    (∀ sg, s.sig = some sg → verify sg m a = true →
      EcdsaSignature.prune verify encode s (.Ethereum a) d = s) ∧
    (s.sig = none → EcdsaSignature.prune verify encode s (.Ethereum a) d =
      EcdsaSignature.empty) := by
  obtain ⟨sig⟩ := s
  refine ⟨?_, ?_, ?_⟩
  · intro sg hs hv
    cases hs
    simp [EcdsaSignature.prune, henc, hv, EcdsaSignature.empty]
  · intro sg hs hv
    cases hs
    simp [EcdsaSignature.prune, henc, hv]
  · intro hs
    cases hs
    rfl

/-- Witness for C7 at a rejecting verifier and a present signature. -/
theorem ecdsa_prune_ethereum_spec_witness :
    EcdsaSignature.prune ecdsaVerifyNever eipEncodeConst ⟨some 5⟩ (.Ethereum [9]) 0 =
      EcdsaSignature.empty :=
  (ecdsa_prune_ethereum_spec ecdsaVerifyNever eipEncodeConst ⟨some 5⟩ [9] 0 [1, 2] rfl).1
    5 rfl rfl

/-- C10: `EcdsaSignature::prune` with a non-Ethereum identity always
returns the empty signature, whatever the contained signature, the
verifier and the typed data; only Ethereum identities can retain an ECDSA
signature through pruning. -/
theorem ecdsa_prune_non_ethereum {S D : Type} (verify : S → List Nat → List Nat → Bool)
    (encode : D → Option (List Nat)) (s : EcdsaSignature S) (d : D) (gid : Nat)
    (gu : List Char) :
    EcdsaSignature.prune verify encode s .None d = EcdsaSignature.empty ∧
    EcdsaSignature.prune verify encode s (.Github gid gu) d = EcdsaSignature.empty := by
  obtain ⟨sig⟩ := s
  cases sig <;> exact ⟨rfl, rfl⟩

/-- C6: `Contribution::validate` checks the g1 powers, then the g2 powers,
then the singleton `pot_pubkey` sequence, in that order: a g1 failure is
reported even when g2 powers are also invalid, a g2 failure is reported
next, and the call succeeds exactly when all three checks succeed; as a
pure function of the contribution it leaves the contribution unchanged. -/
theorem contribution_validate_spec (checkG1 checkG2 : ZMod blsR → Option Nat)
    (c : Contribution) :
    (∀ e, validateG1 checkG1 c.powers.g1 = .error e →
      c.validate checkG1 checkG2 = .error e) ∧
    (∀ e, validateG1 checkG1 c.powers.g1 = .ok () →
      validateG2 checkG2 c.powers.g2 = .error e →
      c.validate checkG1 checkG2 = .error e) ∧
    (validateG1 checkG1 c.powers.g1 = .ok () →
      validateG2 checkG2 c.powers.g2 = .ok () →
      c.validate checkG1 checkG2 = validateG2 checkG2 [c.pot_pubkey]) ∧
    (c.validate checkG1 checkG2 = .ok () ↔
      validateG1 checkG1 c.powers.g1 = .ok () ∧
      validateG2 checkG2 c.powers.g2 = .ok () ∧
      validateG2 checkG2 [c.pot_pubkey] = .ok ()) := by
  unfold Contribution.validate
  refine ⟨?_, ?_, ?_, ?_⟩
  · intro e h1
    rw [h1]
  · intro e h1 h2
    rw [h1, h2]
  · intro h1 h2
    rw [h1, h2]
  · constructor
    · intro hok
      cases h1 : validateG1 checkG1 c.powers.g1 with
      | error e => rw [h1] at hok; exact Except.noConfusion hok
      | ok u =>
        cases u
        rw [h1] at hok
        cases h2 : validateG2 checkG2 c.powers.g2 with
        | error e => rw [h2] at hok; exact Except.noConfusion hok
        | ok u =>
          cases u
          rw [h2] at hok
          exact ⟨rfl, rfl, hok⟩
    · rintro ⟨h1, h2, h3⟩
      rw [h1, h2, h3]

/-- Witness for C6: a contribution whose g1 and g2 powers are both invalid
reports the g1 error at index 0. -/
theorem contribution_validate_spec_witness :
    Contribution.validate checkAllBad checkAllBad
      { powers := { g1 := [0], g2 := [0] }, pot_pubkey := 0,
        bls_signature := BlsSignature.empty } = .error (.InvalidG1Power 0 3) :=
  (contribution_validate_spec checkAllBad checkAllBad _).1 _ rfl

/-- C5: a `try_contribute` call for a registered session whose first-ping
exemption is spent and whose last ping is less than `min_checkin_delay` old
returns `RateLimited`, whatever the active slot holds; and a session's
first ping attempt passes the check, clears the exemption flag, and
refreshes the ping time. -/
theorem try_contribute_rate_limit_spec (st : LobbyState) (sid now delay : Nat)
    (info : SessionInfo) (hs : st.sessions.lookup sid = some info) :
    (info.is_first_ping_attempt = false → now < info.last_ping_time + delay →
      (tryContribute st sid now delay).1 = .error .RateLimited) ∧
    (info.is_first_ping_attempt = true →
      (pingClosure now delay info).1 = .ok info.uid ∧
      (pingClosure now delay info).2.is_first_ping_attempt = false ∧
      (pingClosure now delay info).2.last_ping_time = now) := by
  constructor
  · intro hfirst hearly
    have hping : pingClosure now delay info = (.error .RateLimited, info) := by
      unfold pingClosure
      rw [if_pos ⟨hfirst, hearly⟩]
    unfold tryContribute modifyParticipant
    rw [hs]
    simp [hping]
  · intro hfirst
    have hping : pingClosure now delay info =
        (.ok info.uid, { info with is_first_ping_attempt := false, last_ping_time := now }) := by
      unfold pingClosure
      rw [if_neg (fun hc => by rw [hfirst] at hc; exact Bool.noConfusion hc.1)]
    rw [hping]
    exact ⟨rfl, rfl, rfl⟩

/-- Witness for C5: a concrete lobby in which another session holds the
active slot and the pinging session is rate limited. -/
theorem try_contribute_rate_limit_spec_witness :
    (tryContribute ⟨[(1, ⟨false, 10, 7⟩)], some 2⟩ 1 11 5).1 = .error .RateLimited :=
  (try_contribute_rate_limit_spec ⟨[(1, ⟨false, 10, 7⟩)], some 2⟩ 1 11 5
    ⟨false, 10, 7⟩ rfl).1 rfl (by decide)

theorem tauPowersFrom_zipWith (tau : F) (pts : List F) :
    ∀ acc : F, List.zipWith (fun s p => s * p) (tauPowersFrom tau acc pts.length) pts =
      pts.mapIdx fun i p => acc * tau ^ i * p := by
  induction pts with
  | nil => intro acc; rfl
  | cons p ps ih =>
    intro acc
    simp only [List.length_cons, tauPowersFrom, List.zipWith_cons_cons, List.mapIdx_cons]
    rw [ih (acc * tau), pow_zero, mul_one]
    have hfun : (fun (i : Nat) (q : F) => acc * tau * tau ^ i * q) =
        fun (i : Nat) (q : F) => acc * tau ^ (i + 1) * q := by
      funext i q
      ring
    rw [hfun]

theorem addTauPoints_mapIdx (tau : F) (pts : List F) :
    addTauPoints tau pts = pts.mapIdx fun i p => tau ^ i * p := by
  unfold addTauPoints tauPowers
  rw [tauPowersFrom_zipWith tau pts 1]
  congr 1
  funext i p
  ring

theorem addTauPoints_pair (tau pk : F) :
    addTauPoints tau [1, pk] = [1, tau * pk] := by
  simp [addTauPoints, tauPowers, tauPowersFrom]

/-- C1: `Contribution::add_tau` multiplies the i-th g1 power and the i-th
g2 power by `τ^i`, multiplies `pot_pubkey` by `τ`, and replaces the BLS
signature by the signature under `τ` of the canonical identity encoding;
it succeeds and no other field changes (the result is fully determined by
this equation). -/
theorem contribution_add_tau_spec (hashG1 : List Nat → G1) (tau : F) (identity : Identity)
    (c : Contribution) :
    c.add_tau hashG1 tau identity = .ok
      { powers := { g1 := c.powers.g1.mapIdx fun i p => tau ^ i * p,
                    g2 := c.powers.g2.mapIdx fun i p => tau ^ i * p },
        pot_pubkey := tau * c.pot_pubkey,
        bls_signature := BlsSignature.sign hashG1 (identityBytes identity) tau } := by
  unfold Contribution.add_tau
  rw [addTauPoints_pair, addTauPoints_mapIdx, addTauPoints_mapIdx]
  rfl

theorem xmdLoop_length (H : List Nat → List Nat) (dp b0 : List Nat) (bLen : Nat)
    (hH : ∀ m, (H m).length = bLen) :
    ∀ (l : List Nat) (b u : List Nat),
      ((xmdLoop H dp b0 l (b, u)).2).length = u.length + l.length * bLen := by
  intro l
  induction l with
  | nil => intro b u; simp [xmdLoop]
  | cons i rest ih =>
    intro b u
    simp only [xmdLoop]
    rw [ih]
    simp only [List.length_append, hH, List.length_cons]
    ring

theorem specBlock_one (H : List Nat → List Nat) (dp b0 b1 : List Nat) :
    specBlock H dp b0 b1 1 = b1 := rfl

theorem xmdLoop_spec (H : List Nat → List Nat) (dp b0 b1 : List Nat) :
    ∀ (k i : Nat) (u : List Nat), 1 ≤ i → i + k ≤ 255 →
      xmdLoop H dp b0 (List.range' (i + 1) k) (specBlock H dp b0 b1 i, u) =
        (specBlock H dp b0 b1 (i + k),
         u ++ ((List.range' (i + 1) k).map (specBlock H dp b0 b1)).flatten) := by
  intro k
  induction k with
  | zero =>
    intro i u h1 h2
    simp [xmdLoop]
  | succ k ih =>
    intro i u h1 h2
    obtain ⟨j, rfl⟩ : ∃ j, i = j + 1 := ⟨i - 1, by omega⟩
    rw [List.range'_succ]
    simp only [xmdLoop]
    have hmod : (j + 1 + 1) % 256 = j + 1 + 1 := Nat.mod_eq_of_lt (by omega)
    have hb : H ((List.zipWith (fun l r => l ^^^ r) b0 (specBlock H dp b0 b1 (j + 1))) ++
        [(j + 1 + 1) % 256] ++ dp) = specBlock H dp b0 b1 (j + 1 + 1) := by
      rw [hmod]
      rfl
    rw [hb]
    have harg : j + 1 + 1 + 1 = (j + 1 + 1) + 1 := rfl
    rw [show j + 1 + 1 = (j + 1) + 1 from rfl] at *
    have := ih ((j + 1) + 1) (u ++ specBlock H dp b0 b1 ((j + 1) + 1)) (by omega) (by omega)
    rw [this, List.map_cons, List.flatten_cons]
    have hidx : j + 1 + (k + 1) = j + 1 + 1 + k := by omega
    rw [hidx, ← List.append_assoc]

theorem xmdExpand_eq_spec (H : List Nat → List Nat) (bLen blockSize : Nat)
    (dst msg : List Nat) (n : Nat) (hb : 0 < bLen) (hH : ∀ m, (H m).length = bLen)
    (hell : (n + (bLen - 1)) / bLen ≤ 255) (hn : n < 2 ^ 16) :
    xmdExpand H bLen blockSize dst msg n = some (xmdSpec H bLen blockSize dst msg n) := by
  simp only [xmdExpand, xmdSpec]
  rw [if_neg (by omega), if_neg (by omega)]
  set ell := (n + (bLen - 1)) / bLen with hells
  set dp := constructDstPrime H dst with hdp
  set b0 := H (List.replicate blockSize 0 ++ msg ++ [n / 256, n % 256] ++ [0] ++ dp) with hb0
  set b1 := H (b0 ++ [1] ++ dp) with hb1
  rcases Nat.eq_zero_or_pos ell with hell0 | hellpos
  · have hn0 : n = 0 := by
      have hd0 : (n + (bLen - 1)) / bLen = 0 := by rw [← hells]; exact hell0
      have := (Nat.div_eq_zero_iff hb).mp hd0
      omega
    subst hn0
    simp [hell0, xmdLoop]
  · obtain ⟨k, hk⟩ : ∃ k, ell = k + 1 := ⟨ell - 1, by omega⟩
    have hloop := xmdLoop_spec H dp b0 b1 k 1 b1 (le_refl 1) (by omega)
    rw [specBlock_one, show (1 : Nat) + 1 = 2 from rfl] at hloop
    have hlen := xmdLoop_length H dp b0 bLen hH (List.range' 2 k) b1 b1
    rw [hloop] at hlen
    have hb1len : b1.length = bLen := by rw [hb1]; exact hH _
    rw [List.length_range'] at hlen
    have hcount : n ≤ (b1 ++ (List.map (specBlock H dp b0 b1) (List.range' 2 k)).flatten).length := by
      rw [hlen, hb1len]
      have hdm : bLen * ell + (n + (bLen - 1)) % bLen = n + (bLen - 1) := by
        rw [hells]
        exact Nat.div_add_mod _ _
      have hmod : (n + (bLen - 1)) % bLen < bLen := Nat.mod_lt _ hb
      rw [hk] at hdm
      have hmul : bLen * (k + 1) = bLen + k * bLen := by ring
      rw [hmul] at hdm
      generalize k * bLen = P at hdm ⊢
      omega
    rw [hk, show k + 1 - 1 = k from rfl, hloop, if_pos hcount,
      List.range'_succ 1 k 1, show (1 : Nat) + 1 = 2 from rfl, List.map_cons,
      List.flatten_cons, specBlock_one]

/-- C3: under the hash-to-curve preconditions — positive fixed hash output
length `bLen`, `ell = ⌈n / bLen⌉ ≤ 255` and `n < 2 ^ 16` —
`ExpanderXmd::expand(msg, n)` returns exactly the first `n` bytes of
`b1 || b2 || … || b_ell`, where the blocks follow the spec recurrence
`b1 = H(b0 || 1 || DST')`, `b_i = H((b0 xor b_(i-1)) || i || DST')`, with
`b0 = H(Z_pad || msg || I2OSP(n, 2) || 0 || DST')` and `DST'` built by
`construct_dst_prime`. -/
theorem xmd_expand_matches_rfc (H : List Nat → List Nat) (bLen blockSize : Nat)
    (dst msg : List Nat) (n : Nat) (hb : 0 < bLen) (hH : ∀ m, (H m).length = bLen)
    (hell : (n + (bLen - 1)) / bLen ≤ 255) (hn : n < 2 ^ 16) :
    xmdExpand H bLen blockSize dst msg n = some (xmdSpec H bLen blockSize dst msg n) :=
  xmdExpand_eq_spec H bLen blockSize dst msg n hb hH hell hn

/-- Witness for C3 at a concrete constant hasher with two-byte output. -/
theorem xmd_expand_matches_rfc_witness :
    xmdExpand hashConst2 2 1 [] [5] 3 = some (xmdSpec hashConst2 2 1 [] [5] 3) :=
  xmd_expand_matches_rfc hashConst2 2 1 [] [5] 3 (by decide) (fun _ => rfl)
    (by decide) (by decide)

/-- C9: for a hasher with positive fixed output length `bLen`, `expand`
aborts (modelled as `none`, the image of the two `assert!` failures)
exactly when `⌈n / bLen⌉ > 255` or `n ≥ 2 ^ 16`; when both bounds hold it
returns a value. -/
theorem xmd_expand_assert_spec (H : List Nat → List Nat) (bLen blockSize : Nat)
    (dst msg : List Nat) (n : Nat) (hb : 0 < bLen) (hH : ∀ m, (H m).length = bLen) :
    xmdExpand H bLen blockSize dst msg n = none ↔
      255 < (n + (bLen - 1)) / bLen ∨ 2 ^ 16 ≤ n := by
  constructor
  · intro hnone
    by_contra hc
    push_neg at hc
    rw [xmdExpand_eq_spec H bLen blockSize dst msg n hb hH (by omega) (by omega)] at hnone
    exact Option.noConfusion hnone
  · intro h
    simp only [xmdExpand]
    by_cases h1 : 255 < (n + (bLen - 1)) / bLen
    · rw [if_pos h1]
    · rw [if_neg h1, if_pos (by omega)]

/-- Witness for C9: a request for 70000 bytes violates the `n < 2 ^ 16`
bound and aborts. -/
theorem xmd_expand_assert_spec_witness :
    xmdExpand hashConst2 2 1 [] [] 70000 = none :=
  (xmd_expand_assert_spec hashConst2 2 1 [] [] 70000 (by decide) (fun _ => rfl)).mpr
    (Or.inr (by decide))
